import Mathlib

/-!
Verification of the timeline layout and interactive-editing engine
(`src/TimelineDisplay.tsx`, `TimePickerModal` and the enclosing
`ScheduleManager`).  Times of day are modelled as rationals (the source uses
JS numbers for quarter-hour values, on which float arithmetic is exact), and
the stateful React pieces are modelled as explicit state-passing functions.
-/

namespace Scheduler

/-- The `TimeBlockData` interface of `TimelineDisplay.tsx`. -/
structure TimeBlockData where
  id : String
  start : ℚ
  «end» : ℚ
  label : String
  color : String
  calendarId : String
deriving DecidableEq, Repr

/-- `Math.round` of JS on rationals: round half toward positive infinity. -/
def jsRound (x : ℚ) : ℤ := ⌊x + 1/2⌋

/-- The inline quantization `Math.round(v * 4) / 4` used throughout
`TimelineDisplay.tsx` (drag updates, `getTimeFromX`). -/
def quantize (x : ℚ) : ℚ := (jsRound (x * 4) : ℚ) / 4

/-- `n.toString().padStart(2, "0")` for the integers produced by
`formatTime`. -/
def padTwo (n : ℤ) : String :=
  let s := toString n
  if s.length < 2 then "0" ++ s else s

/-- `formatTime` of `TimelineDisplay.tsx` (lines 30–34):
`hours = Math.floor(time)`, `minutes = Math.round((time - hours) * 60)`,
rendered as zero-padded `HH:MM`. -/
def formatTime (time : ℚ) : String :=
  let hours : ℤ := ⌊time⌋
  let minutes : ℤ := jsRound ((time - hours) * 60)
  padTwo hours ++ ":" ++ padTwo minutes

/-! ## Row packing engine (`blockRows` useMemo, `TimelineDisplay.tsx` 169–188) -/

/-- The overlap test of the `while` condition in the `blockRows` computation:
an already-assigned block `a` blocks the current block `b` when
`a.start < b.end && a.end > b.start`.  (The source looks `a` up in `blocks`
by its id; with distinct ids that lookup returns the assigned block itself,
so the map is modelled as a list of (block, row) pairs in insertion order.) -/
def overlapb (a b : TimeBlockData) : Bool :=
  decide (a.start < b.«end») && decide (a.«end» > b.start)

/-- One evaluation of the `while` condition: some entry of the `rows` map sits
in row `row` and overlaps `block`. -/
def rowBlocked (rows : List (TimeBlockData × ℕ)) (block : TimeBlockData)
    (row : ℕ) : Bool :=
  rows.any fun p => p.2 == row && overlapb p.1 block

/-- The `while (...) row++` loop, with explicit fuel (the source loop always
terminates because at most `rows.length` distinct rows are occupied). -/
def findFreeRowFrom (rows : List (TimeBlockData × ℕ)) (block : TimeBlockData) :
    ℕ → ℕ → ℕ
  | 0, row => row
  | fuel + 1, row =>
    if rowBlocked rows block row then findFreeRowFrom rows block fuel (row + 1)
    else row

/-- Result of the `while` loop started at `row = 0`. -/
def findFreeRow (rows : List (TimeBlockData × ℕ)) (block : TimeBlockData) : ℕ :=
  findFreeRowFrom rows block (rows.length + 1) 0

/-- `[...blocks].sort((a, b) => a.start - b.start)`: a stable ascending sort
by `start`, modelled by insertion sort (stable sorts w.r.t. the same key
agree). -/
def sortBlocks (blocks : List TimeBlockData) : List TimeBlockData :=
  List.insertionSort (fun a b => a.start ≤ b.start) blocks

/-- The `forEach` body: assign each block in order the row found by the
`while` loop, tracking `maxRowFound` exactly as the source does. -/
def assignRows :
    List TimeBlockData → List (TimeBlockData × ℕ) → ℕ →
      List (TimeBlockData × ℕ) × ℕ
  | [], rows, maxRowFound => (rows, maxRowFound)
  | block :: rest, rows, maxRowFound =>
    let row := findFreeRow rows block
    assignRows rest (rows ++ [(block, row)]) (max maxRowFound row)

/-- The whole `useMemo` body: sort, assign, report. -/
def blockRowsCalc (blocks : List TimeBlockData) :
    List (TimeBlockData × ℕ) × ℕ :=
  assignRows (sortBlocks blocks) [] 0

/-- The `blockRows` map as a list of (block, row) pairs in insertion order. -/
def blockRows (blocks : List TimeBlockData) : List (TimeBlockData × ℕ) :=
  (blockRowsCalc blocks).1

/-- `maxRow = Math.max(maxRowFound + 1, MIN_ROW_COUNT)` with
`MIN_ROW_COUNT = 3`. -/
def maxRow (blocks : List TimeBlockData) : ℕ :=
  max ((blockRowsCalc blocks).2 + 1) 3

/-- Every assigned row index is below the number of entries. -/
def RowsBound (rows : List (TimeBlockData × ℕ)) : Prop :=
  ∀ p ∈ rows, p.2 < rows.length

/-- Each entry of the assignment got the smallest row that was free w.r.t.
the entries assigned before it. -/
def GreedyInv (rows : List (TimeBlockData × ℕ)) : Prop :=
  ∀ i (h : i < rows.length),
    rowBlocked (rows.take i) (rows.get ⟨i, h⟩).1 (rows.get ⟨i, h⟩).2 = false ∧
    ∀ s < (rows.get ⟨i, h⟩).2,
      rowBlocked (rows.take i) (rows.get ⟨i, h⟩).1 s = true

/-- The highest row index appearing in an assignment (0 when empty), the
value the source tracks incrementally in `maxRowFound`. -/
def highestRow (rows : List (TimeBlockData × ℕ)) : ℕ :=
  rows.foldl (fun m p => max m p.2) 0

lemma rowBlocked_of_all_lt {rows : List (TimeBlockData × ℕ)}
    {block : TimeBlockData} {n : ℕ} (h : ∀ p ∈ rows, p.2 < n) :
    rowBlocked rows block n = false := by
  simp only [rowBlocked, List.any_eq_false]
  intro p hp
  simp only [Bool.and_eq_true, beq_iff_eq, not_and]
  intro hrow
  exact absurd hrow (Nat.ne_of_lt (h p hp))

lemma findFreeRowFrom_ge (rows : List (TimeBlockData × ℕ))
    (block : TimeBlockData) :
    ∀ fuel start, start ≤ findFreeRowFrom rows block fuel start := by
  intro fuel
  induction fuel with
  | zero => intro start; exact le_rfl
  | succ n ih =>
    intro start
    simp only [findFreeRowFrom]
    split
    · exact le_trans (Nat.le_succ start) (ih (start + 1))
    · exact le_rfl

lemma findFreeRowFrom_min (rows : List (TimeBlockData × ℕ))
    (block : TimeBlockData) :
    ∀ fuel start s, start ≤ s → s < findFreeRowFrom rows block fuel start →
      rowBlocked rows block s = true := by
  intro fuel
  induction fuel with
  | zero =>
    intro start s hs hlt
    exact absurd (lt_of_le_of_lt hs hlt) (lt_irrefl start)
  | succ n ih =>
    intro start s hs hlt
    simp only [findFreeRowFrom] at hlt
    rcases hb : rowBlocked rows block start with _ | _
    · rw [hb] at hlt
      simp only [if_neg Bool.false_ne_true] at hlt
      exact absurd (lt_of_le_of_lt hs hlt) (lt_irrefl start)
    · rw [hb] at hlt
      simp only [if_pos rfl] at hlt
      rcases Nat.eq_or_lt_of_le hs with heq | hgt
      · rw [← heq]; exact hb
      · exact ih (start + 1) s hgt hlt

lemma findFreeRowFrom_not_blocked (rows : List (TimeBlockData × ℕ))
    (block : TimeBlockData) :
    ∀ fuel start, (∃ j, j < fuel ∧ rowBlocked rows block (start + j) = false) →
      rowBlocked rows block (findFreeRowFrom rows block fuel start) = false := by
  intro fuel
  induction fuel with
  | zero =>
    intro start ⟨j, hj, _⟩
    exact absurd hj (Nat.not_lt_zero j)
  | succ n ih =>
    intro start ⟨j, hj, hfree⟩
    simp only [findFreeRowFrom]
    rcases hb : rowBlocked rows block start with _ | _
    · simpa using hb
    · simp only [if_pos rfl]
      apply ih
      rcases j with _ | j
      · rw [Nat.add_zero] at hfree
        rw [hfree] at hb
        exact absurd hb Bool.false_ne_true
      · refine ⟨j, Nat.lt_of_succ_lt_succ hj, ?_⟩
        have harith : start + 1 + j = start + (j + 1) := by omega
        rw [harith]
        exact hfree

lemma findFreeRow_not_blocked {rows : List (TimeBlockData × ℕ)}
    {block : TimeBlockData} (h : RowsBound rows) :
    rowBlocked rows block (findFreeRow rows block) = false := by
  apply findFreeRowFrom_not_blocked
  refine ⟨rows.length, Nat.lt_succ_self _, ?_⟩
  simpa using rowBlocked_of_all_lt h

lemma findFreeRow_min {rows : List (TimeBlockData × ℕ)}
    {block : TimeBlockData} :
    ∀ s < findFreeRow rows block, rowBlocked rows block s = true :=
  fun s hs => findFreeRowFrom_min rows block (rows.length + 1) 0 s (Nat.zero_le s) hs

lemma findFreeRow_le_length {rows : List (TimeBlockData × ℕ)}
    {block : TimeBlockData} (h : RowsBound rows) :
    findFreeRow rows block ≤ rows.length := by
  by_contra hlt
  push_neg at hlt
  have hblocked := findFreeRow_min rows.length hlt
  rw [rowBlocked_of_all_lt h] at hblocked
  exact absurd hblocked Bool.false_ne_true

lemma rowsBound_snoc {rows : List (TimeBlockData × ℕ)} {block : TimeBlockData}
    (h : RowsBound rows) :
    RowsBound (rows ++ [(block, findFreeRow rows block)]) := by
  intro p hp
  rw [List.length_append, List.length_singleton]
  rcases List.mem_append.1 hp with hin | hx
  · exact Nat.lt_succ_of_lt (h p hin)
  · rw [List.mem_singleton] at hx
    rw [hx]
    exact Nat.lt_succ_of_le (findFreeRow_le_length h)

lemma greedyInv_snoc {rows : List (TimeBlockData × ℕ)} {block : TimeBlockData}
    (hb : RowsBound rows) (h : GreedyInv rows) :
    GreedyInv (rows ++ [(block, findFreeRow rows block)]) := by
  intro i hi
  have hi2 : i < rows.length + 1 := by
    simpa using hi
  rcases Nat.lt_or_ge i rows.length with hlt | hge
  · have htake : (rows ++ [(block, findFreeRow rows block)]).take i = rows.take i :=
      List.take_append_of_le_length (le_of_lt hlt)
    have hget : (rows ++ [(block, findFreeRow rows block)]).get ⟨i, hi⟩ =
        rows.get ⟨i, hlt⟩ := by
      simp only [List.get_eq_getElem]
      exact List.getElem_append_left hlt
    rw [htake, hget]
    exact h i hlt
  · have heq : i = rows.length := by omega
    have hget : (rows ++ [(block, findFreeRow rows block)]).get ⟨i, hi⟩ =
        (block, findFreeRow rows block) := by
      simp only [List.get_eq_getElem]
      exact List.getElem_concat_length rows _ i heq _
    have htake : (rows ++ [(block, findFreeRow rows block)]).take i = rows := by
      rw [heq]
      exact List.take_left rows _
    rw [htake, hget]
    exact ⟨findFreeRow_not_blocked hb, fun s hs => findFreeRow_min s hs⟩

lemma assignRows_spec :
    ∀ (bs : List TimeBlockData) (rows : List (TimeBlockData × ℕ)) (m : ℕ),
      RowsBound rows → GreedyInv rows →
      RowsBound (assignRows bs rows m).1 ∧ GreedyInv (assignRows bs rows m).1 ∧
        (assignRows bs rows m).1.map Prod.fst = rows.map Prod.fst ++ bs := by
  intro bs
  induction bs with
  | nil =>
    intro rows m h1 h2
    exact ⟨h1, h2, by simp [assignRows]⟩
  | cons b rest ih =>
    intro rows m h1 h2
    simp only [assignRows]
    obtain ⟨r1, r2, r3⟩ := ih (rows ++ [(b, findFreeRow rows b)])
      (max m (findFreeRow rows b)) (rowsBound_snoc h1) (greedyInv_snoc h1 h2)
    refine ⟨r1, r2, ?_⟩
    rw [r3]
    simp

lemma highestRow_snoc (rows : List (TimeBlockData × ℕ)) (x : TimeBlockData × ℕ) :
    highestRow (rows ++ [x]) = max (highestRow rows) x.2 := by
  simp [highestRow, List.foldl_append]

lemma assignRows_max :
    ∀ (bs : List TimeBlockData) (rows : List (TimeBlockData × ℕ)) (m : ℕ),
      m = highestRow rows →
      (assignRows bs rows m).2 = highestRow (assignRows bs rows m).1 := by
  intro bs
  induction bs with
  | nil =>
    intro rows m hm
    simpa [assignRows] using hm
  | cons b rest ih =>
    intro rows m hm
    simp only [assignRows]
    apply ih
    rw [highestRow_snoc, hm]

lemma pairwise_of_greedyInv {rows : List (TimeBlockData × ℕ)}
    (h : GreedyInv rows) :
    List.Pairwise (fun p q : TimeBlockData × ℕ =>
      p.2 = q.2 → ¬(p.1.start < q.1.«end» ∧ p.1.«end» > q.1.start)) rows := by
  rw [List.pairwise_iff_getElem]
  intro i j hi hj hij hrow hover
  obtain ⟨hfree, _⟩ := h j hj
  simp only [List.get_eq_getElem] at hfree
  rw [rowBlocked, List.any_eq_false] at hfree
  have hjlen : i < (rows.take j).length := by
    simp [Nat.lt_of_lt_of_le hij (Nat.le_of_lt hj), hij]
  have hmem : rows[i] ∈ rows.take j := by
    have hgt : (rows.take j)[i] = rows[i] := List.getElem_take rows
    rw [← hgt]
    exact List.getElem_mem hjlen
  have hnot := hfree (rows[i]) hmem
  rw [Bool.and_eq_true, beq_iff_eq] at hnot
  apply hnot
  constructor
  · exact hrow
  · simp only [overlapb, Bool.and_eq_true, decide_eq_true_eq]
    exact ⟨hover.1, hover.2⟩

instance : DecidableRel (fun a b : TimeBlockData => a.start ≤ b.start) :=
  fun a b => inferInstanceAs (Decidable (a.start ≤ b.start))

instance : IsTotal TimeBlockData (fun a b => a.start ≤ b.start) :=
  ⟨fun a b => le_total a.start b.start⟩

instance : IsTrans TimeBlockData (fun a b => a.start ≤ b.start) :=
  ⟨fun _ _ _ hab hbc => le_trans hab hbc⟩

lemma filter_orderedInsert_start (a : TimeBlockData) (s : ℚ) :
    ∀ l : List TimeBlockData,
      (List.orderedInsert (fun x y => x.start ≤ y.start) a l).filter
          (fun b => decide (b.start = s)) =
        if a.start = s then a :: l.filter (fun b => decide (b.start = s))
        else l.filter (fun b => decide (b.start = s)) := by
  intro l
  induction l with
  | nil =>
    simp only [List.orderedInsert_nil]
    by_cases ha : a.start = s
    · rw [if_pos ha]
      simp [List.filter_cons, ha]
    · rw [if_neg ha]
      simp [List.filter_cons, ha]
  | cons y ys ih =>
    simp only [List.orderedInsert]
    by_cases hle : a.start ≤ y.start
    · rw [if_pos hle]
      by_cases ha : a.start = s
      · rw [if_pos ha]
        simp [List.filter_cons, ha]
      · rw [if_neg ha]
        simp [List.filter_cons, ha]
    · rw [if_neg hle]
      push_neg at hle
      by_cases ha : a.start = s
      · rw [if_pos ha]
        have hy : ¬y.start = s := by
          rw [← ha]
          exact ne_of_lt hle
        simp [List.filter_cons, hy, ih, ha]
      · rw [if_neg ha]
        simp [List.filter_cons, ih, ha]

lemma filter_sortBlocks_start (blocks : List TimeBlockData) (s : ℚ) :
    (sortBlocks blocks).filter (fun b => decide (b.start = s)) =
      blocks.filter (fun b => decide (b.start = s)) := by
  induction blocks with
  | nil => rfl
  | cons a l ih =>
    simp only [sortBlocks, List.insertionSort] at *
    rw [filter_orderedInsert_start, ih]
    by_cases ha : a.start = s
    · rw [if_pos ha]
      simp [List.filter_cons, ha]
    · rw [if_neg ha]
      simp [List.filter_cons, ha]

lemma rowsBound_nil : RowsBound [] := fun p hp => absurd hp (List.not_mem_nil p)

lemma greedyInv_nil : GreedyInv [] := fun i hi => absurd hi (Nat.not_lt_zero i)

/-- C1: on a snapshot of intervals with distinct ids, the row packing engine
processes the intervals in ascending-start stable order, assigns each the
smallest row index free of overlaps against previously assigned intervals
(overlap(a,b) = a.start < b.end ∧ a.end > b.start on the stored fields), and
consequently no two intervals assigned the same row overlap. -/
theorem c1_row_packing (blocks : List TimeBlockData)
    (hids : (blocks.map TimeBlockData.id).Nodup) :
    (blockRows blocks).map Prod.fst = sortBlocks blocks ∧
    List.Sorted (fun a b : TimeBlockData => a.start ≤ b.start)
      (sortBlocks blocks) ∧
    List.Perm (sortBlocks blocks) blocks ∧
    (∀ s : ℚ, (sortBlocks blocks).filter (fun b => decide (b.start = s)) =
      blocks.filter (fun b => decide (b.start = s))) ∧
    GreedyInv (blockRows blocks) ∧
    List.Pairwise (fun p q : TimeBlockData × ℕ =>
      p.2 = q.2 → ¬(p.1.start < q.1.«end» ∧ p.1.«end» > q.1.start))
      (blockRows blocks) := by
  obtain ⟨hb, hg, hmap⟩ :=
    assignRows_spec (sortBlocks blocks) [] 0 rowsBound_nil greedyInv_nil
  exact ⟨by simpa [blockRows, blockRowsCalc] using hmap,
    List.sorted_insertionSort _ blocks,
    List.perm_insertionSort _ blocks,
    fun s => filter_sortBlocks_start blocks s,
    hg,
    pairwise_of_greedyInv hg⟩

/-- Witness for C1 at a concrete snapshot of three blocks with distinct ids,
two of which overlap. -/
theorem c1_row_packing_witness :
    (([⟨"a", 9, 17, "Work", "#E6F3FF", "work"⟩,
       ⟨"b", 10, 12, "Meet", "#E6F3FF", "work"⟩,
       ⟨"c", 18, 20, "Gym", "#E6F3FF", "work"⟩] :
        List TimeBlockData).map TimeBlockData.id).Nodup ∧
    List.Pairwise (fun p q : TimeBlockData × ℕ =>
      p.2 = q.2 → ¬(p.1.start < q.1.«end» ∧ p.1.«end» > q.1.start))
      (blockRows [⟨"a", 9, 17, "Work", "#E6F3FF", "work"⟩,
        ⟨"b", 10, 12, "Meet", "#E6F3FF", "work"⟩,
        ⟨"c", 18, 20, "Gym", "#E6F3FF", "work"⟩]) :=
  ⟨by decide,
    (c1_row_packing [⟨"a", 9, 17, "Work", "#E6F3FF", "work"⟩,
      ⟨"b", 10, 12, "Meet", "#E6F3FF", "work"⟩,
      ⟨"c", 18, 20, "Gym", "#E6F3FF", "work"⟩] (by decide)).2.2.2.2.2⟩

lemma foldl_max_le (n : ℕ) :
    ∀ (rows : List (TimeBlockData × ℕ)) (init : ℕ), init ≤ n →
      (∀ p ∈ rows, p.2 ≤ n) →
      rows.foldl (fun m p => max m p.2) init ≤ n := by
  intro rows
  induction rows with
  | nil =>
    intro init hi _
    simpa using hi
  | cons p ps ih =>
    intro init hi h
    simp only [List.foldl_cons]
    apply ih
    · exact max_le hi (h p (List.mem_cons_self p ps))
    · intro q hq
      exact h q (List.mem_cons_of_mem p hq)

/-- C10: the reported row count is `max(highest used row index + 1, 3)`, and
for snapshots of at most two intervals it is exactly 3. -/
theorem c10_row_count (blocks : List TimeBlockData) :
    maxRow blocks = max (highestRow (blockRows blocks) + 1) 3 ∧
    (blocks.length ≤ 2 → maxRow blocks = 3) := by
  have hmax : (blockRowsCalc blocks).2 = highestRow (blockRows blocks) :=
    assignRows_max (sortBlocks blocks) [] 0 rfl
  constructor
  · rw [maxRow, hmax]
  · intro hlen
    obtain ⟨hb, _, hmap⟩ :=
      assignRows_spec (sortBlocks blocks) [] 0 rowsBound_nil greedyInv_nil
    have hlen2 : (blockRows blocks).length = blocks.length := by
      have hcong := congrArg List.length hmap
      simp only [List.length_map, List.map_nil, List.nil_append] at hcong
      rw [blockRows, blockRowsCalc, hcong, sortBlocks,
        List.length_insertionSort]
    have hhi : highestRow (blockRows blocks) ≤ 1 := by
      apply foldl_max_le 1 _ 0 (Nat.zero_le 1)
      intro p hp
      have hplt := hb p hp
      rw [blockRows, blockRowsCalc] at hlen2
      omega
    rw [maxRow, hmax]
    omega

/-- Witness for C10 at a two-interval snapshot. -/
theorem c10_row_count_witness :
    ([⟨"a", 9, 17, "Work", "#E6F3FF", "work"⟩,
      ⟨"b", 10, 12, "Meet", "#E6F3FF", "work"⟩] :
       List TimeBlockData).length ≤ 2 ∧
    (maxRow [⟨"a", 9, 17, "Work", "#E6F3FF", "work"⟩,
      ⟨"b", 10, 12, "Meet", "#E6F3FF", "work"⟩] =
      max (highestRow (blockRows [⟨"a", 9, 17, "Work", "#E6F3FF", "work"⟩,
        ⟨"b", 10, 12, "Meet", "#E6F3FF", "work"⟩]) + 1) 3 ∧
      (([⟨"a", 9, 17, "Work", "#E6F3FF", "work"⟩,
        ⟨"b", 10, 12, "Meet", "#E6F3FF", "work"⟩] :
          List TimeBlockData).length ≤ 2 →
        maxRow [⟨"a", 9, 17, "Work", "#E6F3FF", "work"⟩,
          ⟨"b", 10, 12, "Meet", "#E6F3FF", "work"⟩] = 3)) :=
  ⟨by decide,
    c10_row_count [⟨"a", 9, 17, "Work", "#E6F3FF", "work"⟩,
      ⟨"b", 10, 12, "Meet", "#E6F3FF", "work"⟩]⟩

/-! ## Store updates (`ScheduleManager.onUpdateBlock`) and partial updates -/

/-- `Partial<TimeBlockData>`: each field may be present or absent. -/
structure Updates where
  id : Option String := none
  start : Option ℚ := none
  «end» : Option ℚ := none
  label : Option String := none
  color : Option String := none
  calendarId : Option String := none
deriving DecidableEq, Repr

/-- The object spread `{ ...block, ...updates }`: present fields of
`updates` override the block's fields. -/
def applyUpdates (b : TimeBlockData) (u : Updates) : TimeBlockData :=
  { id := u.id.getD b.id
    start := u.start.getD b.start
    «end» := u.«end».getD b.«end»
    label := u.label.getD b.label
    color := u.color.getD b.color
    calendarId := u.calendarId.getD b.calendarId }

/-- `onUpdateBlock` of `ScheduleManager`:
`prev.map(block => block.id === id ? { ...block, ...updates } : block)`. -/
def onUpdateBlock (store : List TimeBlockData) (id : String) (updates : Updates) :
    List TimeBlockData :=
  store.map fun b => if b.id == id then applyUpdates b updates else b

/-- The update emitted by `handleUpdateLabel`: only the label field. -/
def labelUpdate (label : String) : Updates := { label := some label }

/-! ## Drag/resize state machine and commit policy
(`TimelineDisplay.tsx` 150–292) -/

/-- The non-null values of `DragState.type`. -/
inductive DragType
  | move
  | resizeStart
  | resizeEnd
deriving DecidableEq, Repr

/-- The `DragState` record (`type: ... | null` and `blockId: string | null`
modelled as options). -/
structure DragState where
  type : Option DragType
  blockId : Option String
  initialX : ℚ
  initialStart : ℚ
  initialEnd : ℚ
deriving DecidableEq, Repr

/-- The reset value `{ type: null, blockId: null, initialX: 0,
initialStart: 0, initialEnd: 0 }`. -/
def idleDrag : DragState := ⟨none, none, 0, 0, 0⟩

/-- State of `debounce(fn, 16)` from lodash with default options
(trailing edge): at most one pending argument pair, overwritten by each
call, delivered when the timer fires. -/
structure DebounceState where
  pending : Option (String × Updates)
  deadline : ℚ
deriving DecidableEq, Repr

/-- A call of the debounced function at time `now`: stores the latest
arguments and (re)starts the 16 ms timer.  Any earlier pending arguments are
overwritten (last-write-wins coalescing). -/
def debCall (now : ℚ) (args : String × Updates) (s : DebounceState) :
    DebounceState :=
  { pending := some args, deadline := now + 16 }

/-- The debounce timer firing at time `now`: if the deadline has passed, the
wrapped `onUpdateBlock` is invoked with the pending arguments. -/
def debFire (now : ℚ) (s : DebounceState) :
    DebounceState × Option (String × Updates) :=
  match s.pending with
  | some args =>
    if s.deadline ≤ now then ({ pending := none, deadline := s.deadline }, some args)
    else (s, none)
  | none => (s, none)

/-- Combined component state: the `dragState` React state, the debounced
updater's internal state, and the log of updates delivered to the external
store (calls of `onUpdateBlock`), in delivery order. -/
structure MachineState where
  drag : DragState
  deb : DebounceState
  commits : List (String × Updates)
deriving DecidableEq, Repr

/-- `handleStartDrag`: ignores the event if the block is not in the
snapshot, else captures kind, id, pointer X and the block's current
start/end. -/
def handleStartDrag (blocks : List TimeBlockData) (type : DragType)
    (blockId : String) (clientX : ℚ) (s : MachineState) : MachineState :=
  match blocks.find? (fun b => b.id == blockId) with
  | none => s
  | some block =>
    { s with drag := ⟨some type, some blockId, clientX, block.start, block.«end»⟩ }

/-- The `move` branch of `handleMouseMove`: duration read from the block in
the current snapshot, base position from the captured `initialStart`. -/
def moveBranch (block : TimeBlockData) (initialStart timeShift : ℚ) : Updates :=
  let duration := block.«end» - block.start
  let newStart := max 0 (min (24 - duration) (initialStart + timeShift))
  { start := some (quantize newStart),
    «end» := some (quantize (newStart + duration)) }

/-- The `resize-start` branch of `handleMouseMove`: clamp to
`[0, block.end - 0.25]`, quantize, update only `start`. -/
def resizeStartBranch (block : TimeBlockData) (initialStart timeShift : ℚ) :
    Updates :=
  let value := max 0 (min (block.«end» - 1/4) (initialStart + timeShift))
  { start := some (quantize value) }

/-- The `resize-end` branch of `handleMouseMove`: clamp to
`[block.start + 0.25, 24]`, quantize, update only `end`. -/
def resizeEndBranch (block : TimeBlockData) (initialEnd timeShift : ℚ) :
    Updates :=
  let value := max (block.start + 1/4) (min 24 (initialEnd + timeShift))
  { «end» := some (quantize value) }

/-- `handleMouseMove` at time `now`: returns unchanged when no gesture is
active or when the target block is absent from the snapshot; otherwise
computes `timeShift` and hands the branch's update to the debounced
updater.  (The source wraps the update computation in
`requestAnimationFrame`; callbacks run in FIFO order on the same event
loop, so the per-gesture order of updates is preserved and the deferral is
modelled as executing in event order.) -/
def handleMouseMove (now clientX viewportWidth : ℚ)
    (blocks : List TimeBlockData) (s : MachineState) : MachineState :=
  match s.drag.type, s.drag.blockId with
  | some type, some blockId =>
    match blocks.find? (fun b => b.id == blockId) with
    | none => s
    | some block =>
      let timeShift := (clientX - s.drag.initialX) / viewportWidth * 24
      let updates :=
        match type with
        | DragType.move => moveBranch block s.drag.initialStart timeShift
        | DragType.resizeStart => resizeStartBranch block s.drag.initialStart timeShift
        | DragType.resizeEnd => resizeEndBranch block s.drag.initialEnd timeShift
      { s with deb := debCall now (block.id, updates) s.deb }
  | _, _ => s

/-- The `handleMouseUp` listener of the drag effect: it only resets the
drag state; the debounced updater is neither flushed nor cancelled. -/
def handleMouseUp (s : MachineState) : MachineState :=
  { s with drag := idleDrag }

/-- The debounce timer firing at time `now`, delivering the pending update
(if due) to the external store. -/
def timerFire (now : ℚ) (s : MachineState) : MachineState :=
  let fired := debFire now s.deb
  { s with deb := fired.1, commits := s.commits ++ fired.2.toList }

/-- A state in mid-gesture with a mutation still pending in the debounced
updater (three moves have been coalesced, the timer has not yet fired). -/
def midGestureState : MachineState :=
  { drag := ⟨some DragType.move, some "b1", 100, 9, 17⟩,
    deb := { pending := some ("b1", { start := some 10, «end» := some 18 }),
             deadline := 20 },
    commits := [] }

/-- C2 is false as stated: on pointer-up the handler only resets the drag
state.  At a state with a pending mutation, after `handleMouseUp` the
machine is Idle, yet the mutation is still pending and no commit has been
delivered to the store — nothing was flushed synchronously. -/
theorem c2_counterexample :
    (handleMouseUp midGestureState).drag = idleDrag ∧
    (handleMouseUp midGestureState).deb.pending =
      some ("b1", { start := some 10, «end» := some 18 }) ∧
    (handleMouseUp midGestureState).commits = [] ∧
    ¬(handleMouseUp midGestureState).deb.pending = none := by
  refine ⟨rfl, rfl, rfl, ?_⟩
  simp [handleMouseUp, midGestureState]

/-- The scenario state after: pointer-down on a block, three pointer-moves,
pointer-up. -/
def releaseState (blocks : List TimeBlockData) (type : DragType)
    (blockId : String) (x0 x1 x2 x3 w t1 t2 t3 : ℚ) : MachineState :=
  handleMouseUp
    (handleMouseMove t3 x3 w blocks
      (handleMouseMove t2 x2 w blocks
        (handleMouseMove t1 x1 w blocks
          (handleStartDrag blocks type blockId x0 ⟨idleDrag, ⟨none, 0⟩, []⟩))))

/-- C2 amended: on pointer-up the machine returns to Idle with the mutation
from the last move still pending — no commit has been delivered at release
time; the pending mutation is delivered as the single commit when the
16 ms debounce timer fires, reflecting the state of the last move event. -/
theorem c2_amended_release (block : TimeBlockData) (blocks : List TimeBlockData)
    (hfind : blocks.find? (fun b => b.id == block.id) = some block)
    (x0 x1 x2 x3 w t1 t2 t3 T : ℚ)
    (h12 : t1 ≤ t2) (h23 : t2 ≤ t3) (hwin : t3 < t1 + 16) (hT : t3 + 16 ≤ T) :
    (releaseState blocks DragType.move block.id x0 x1 x2 x3 w t1 t2 t3).drag =
      idleDrag ∧
    (releaseState blocks DragType.move block.id x0 x1 x2 x3 w t1 t2 t3).commits =
      [] ∧
    (releaseState blocks DragType.move block.id x0 x1 x2 x3 w t1 t2 t3).deb.pending =
      some (block.id, moveBranch block block.start ((x3 - x0) / w * 24)) ∧
    (timerFire T
        (releaseState blocks DragType.move block.id x0 x1 x2 x3 w t1 t2 t3)).commits =
      [(block.id, moveBranch block block.start ((x3 - x0) / w * 24))] := by
  simp only [releaseState, handleStartDrag, hfind, handleMouseMove,
    handleMouseUp, debCall, timerFire, debFire]
  simp [if_pos hT]

/-- A state whose gesture target is absent from the snapshot, with a
mutation still pending. -/
def vanishedTargetState : MachineState :=
  { drag := ⟨some DragType.move, some "gone", 0, 5, 7⟩,
    deb := { pending := some ("gone", { start := some 6 }), deadline := 16 },
    commits := [] }

/-- C3 is false as stated: when the target interval is absent from the
snapshot while a gesture is active, `handleMouseMove` merely returns — the
machine stays Active (no transition to Idle) and the pending mutation is
not cancelled: it is still delivered when the debounce timer fires. -/
theorem c3_counterexample :
    handleMouseMove 10 50 1000 [] vanishedTargetState = vanishedTargetState ∧
    ¬(handleMouseMove 10 50 1000 [] vanishedTargetState).drag = idleDrag ∧
    (handleMouseMove 10 50 1000 [] vanishedTargetState).drag.type =
      some DragType.move ∧
    (handleMouseMove 10 50 1000 [] vanishedTargetState).deb.pending =
      some ("gone", { start := some 6 }) ∧
    (timerFire 32 (handleMouseMove 10 50 1000 [] vanishedTargetState)).commits =
      [("gone", { start := some 6 })] := by
  refine ⟨rfl, ?_, rfl, rfl, ?_⟩
  · simp [handleMouseMove, vanishedTargetState, idleDrag]
  · have hstep : handleMouseMove 10 50 1000 [] vanishedTargetState =
        vanishedTargetState := rfl
    rw [hstep]
    simp only [timerFire, debFire, vanishedTargetState]
    norm_num

/-- C3 amended: while the gesture's target is absent from the snapshot,
`handleMouseMove` is a no-op — it emits no new mutation, but it neither
returns the machine to Idle nor cancels a pending mutation; the drag state
is cleared only by pointer-up. -/
theorem c3_amended_vanish (blocks : List TimeBlockData) (s : MachineState)
    (type : DragType) (blockId : String)
    (htype : s.drag.type = some type) (hid : s.drag.blockId = some blockId)
    (hfind : blocks.find? (fun b => b.id == blockId) = none)
    (now clientX w : ℚ) :
    handleMouseMove now clientX w blocks s = s := by
  simp [handleMouseMove, htype, hid, hfind]

/-- Witness for the amended C2 theorem: a concrete block dragged from
x=100 over three moves to x=130 in a 1000 px viewport, released, timer
firing at t=20. -/
theorem c2_amended_release_witness :
    (releaseState [⟨"b1", 9, 17, "Work", "#E6F3FF", "work"⟩] DragType.move "b1"
        100 110 120 130 1000 0 1 2).drag = idleDrag ∧
    (releaseState [⟨"b1", 9, 17, "Work", "#E6F3FF", "work"⟩] DragType.move "b1"
        100 110 120 130 1000 0 1 2).commits = [] ∧
    (releaseState [⟨"b1", 9, 17, "Work", "#E6F3FF", "work"⟩] DragType.move "b1"
        100 110 120 130 1000 0 1 2).deb.pending =
      some ("b1", moveBranch ⟨"b1", 9, 17, "Work", "#E6F3FF", "work"⟩ 9
        ((130 - 100) / 1000 * 24)) ∧
    (timerFire 20
        (releaseState [⟨"b1", 9, 17, "Work", "#E6F3FF", "work"⟩] DragType.move "b1"
          100 110 120 130 1000 0 1 2)).commits =
      [("b1", moveBranch ⟨"b1", 9, 17, "Work", "#E6F3FF", "work"⟩ 9
        ((130 - 100) / 1000 * 24))] :=
  c2_amended_release ⟨"b1", 9, 17, "Work", "#E6F3FF", "work"⟩ _ (by rfl)
    100 110 120 130 1000 0 1 2 20 (by norm_num) (by norm_num) (by norm_num)
    (by norm_num)

/-- Witness for the amended C3 theorem at a concrete state. -/
theorem c3_amended_vanish_witness :
    vanishedTargetState.drag.type = some DragType.move ∧
    vanishedTargetState.drag.blockId = some "gone" ∧
    ([] : List TimeBlockData).find? (fun b => b.id == "gone") = none ∧
    handleMouseMove 3 40 500 [] vanishedTargetState = vanishedTargetState :=
  ⟨rfl, rfl, rfl,
    c3_amended_vanish [] vanishedTargetState DragType.move "gone" rfl rfl rfl
      3 40 500⟩

/-! ## TimePickerModal (`handleSave`) and the `onUpdateTime` entry point -/

/-- `handleSave` of `TimePickerModal`: `newStart = startHour + startMinute/60`
and `newEnd = endHour + endMinute/60` from the stepper fields (each field is
individually bounded: hours 0–23, minutes 0–59). -/
def handleSave (startHour startMinute endHour endMinute : ℕ) : ℚ × ℚ :=
  ((startHour : ℚ) + (startMinute : ℚ) / 60,
   (endHour : ℚ) + (endMinute : ℚ) / 60)

/-- The `onUpdateTime` callback passed to `TimePickerModal` by
`TimelineDisplay` (lines 328–331): forwards `(id, { start, end })` to
`onUpdateBlock` as-is. -/
def onUpdateTime (store : List TimeBlockData) (id : String)
    (start «end» : ℚ) : List TimeBlockData :=
  onUpdateBlock store id { start := some start, «end» := some «end» }

/-- `x` is on the quarter-hour grid (a multiple of 0.25). -/
def isQuarter (x : ℚ) : Prop := ∃ k : ℤ, x = (k : ℚ) / 4

/-- C4 is false as stated: the editor's values are forwarded without any
re-clamping or re-quantization.  Entering 00:10 as the start produces
`start = 1/6`, which is not a multiple of 0.25 (its quantization would be
1/4), and the committed interval carries exactly that value. -/
theorem c4_counterexample :
    (handleSave 0 10 2 0).1 = 1 / 6 ∧
    ¬isQuarter (1 / 6) ∧
    quantize (1 / 6) ≠ (1 / 6 : ℚ) ∧
    onUpdateTime [⟨"b1", 9, 17, "Work", "#E6F3FF", "work"⟩] "b1"
        (handleSave 0 10 2 0).1 (handleSave 0 10 2 0).2 =
      [⟨"b1", 1 / 6, 2, "Work", "#E6F3FF", "work"⟩] := by
  refine ⟨by norm_num [handleSave], ?_, ?_, ?_⟩
  · rintro ⟨k, hk⟩
    rw [div_eq_div_iff (by norm_num) (by norm_num)] at hk
    have hcast : (4 : ℤ) = k * 6 := by exact_mod_cast hk
    omega
  · norm_num [quantize, jsRound]
  · simp only [onUpdateTime, onUpdateBlock, applyUpdates, handleSave,
      List.map_cons, List.map_nil]
    norm_num

/-- C4 amended: the `(start, end)` pair from the time-of-day editor is
forwarded to the store unmodified — no re-clamping and no re-quantization
happen at the entry point.  Given the editor's per-field bounds
(hours ≤ 23, minutes ≤ 59) the forwarded values do lie in [0, 24), but
they need not be multiples of 0.25. -/
theorem c4_amended_forward (startHour startMinute endHour endMinute : ℕ)
    (store : List TimeBlockData) (id : String)
    (hsh : startHour ≤ 23) (hsm : startMinute ≤ 59)
    (heh : endHour ≤ 23) (hem : endMinute ≤ 59) :
    (0 ≤ (handleSave startHour startMinute endHour endMinute).1 ∧
      (handleSave startHour startMinute endHour endMinute).1 < 24) ∧
    (0 ≤ (handleSave startHour startMinute endHour endMinute).2 ∧
      (handleSave startHour startMinute endHour endMinute).2 < 24) ∧
    onUpdateTime store id (handleSave startHour startMinute endHour endMinute).1
        (handleSave startHour startMinute endHour endMinute).2 =
      store.map fun b =>
        if b.id == id then
          { b with start := (handleSave startHour startMinute endHour endMinute).1,
                   «end» := (handleSave startHour startMinute endHour endMinute).2 }
        else b := by
  have hsh2 : (startHour : ℚ) ≤ 23 := by exact_mod_cast hsh
  have hsm2 : (startMinute : ℚ) ≤ 59 := by exact_mod_cast hsm
  have heh2 : (endHour : ℚ) ≤ 23 := by exact_mod_cast heh
  have hem2 : (endMinute : ℚ) ≤ 59 := by exact_mod_cast hem
  have hsh0 : (0 : ℚ) ≤ startHour := Nat.cast_nonneg startHour
  have hsm0 : (0 : ℚ) ≤ startMinute := Nat.cast_nonneg startMinute
  have heh0 : (0 : ℚ) ≤ endHour := Nat.cast_nonneg endHour
  have hem0 : (0 : ℚ) ≤ endMinute := Nat.cast_nonneg endMinute
  refine ⟨⟨?_, ?_⟩, ⟨?_, ?_⟩, ?_⟩
  · simp only [handleSave]
    positivity
  · simp only [handleSave]
    linarith
  · simp only [handleSave]
    positivity
  · simp only [handleSave]
    linarith
  · rfl

/-- Witness for the amended C4 theorem at editor input 00:10–02:00. -/
theorem c4_amended_forward_witness :
    (0 ≤ (handleSave 0 10 2 0).1 ∧ (handleSave 0 10 2 0).1 < 24) ∧
    (0 ≤ (handleSave 0 10 2 0).2 ∧ (handleSave 0 10 2 0).2 < 24) ∧
    onUpdateTime [⟨"b1", 9, 17, "Work", "#E6F3FF", "work"⟩] "b1"
        (handleSave 0 10 2 0).1 (handleSave 0 10 2 0).2 =
      ([⟨"b1", 9, 17, "Work", "#E6F3FF", "work"⟩] : List TimeBlockData).map
        fun b =>
          if b.id == "b1" then
            { b with start := (handleSave 0 10 2 0).1,
                     «end» := (handleSave 0 10 2 0).2 }
          else b :=
  c4_amended_forward 0 10 2 0 [⟨"b1", 9, 17, "Work", "#E6F3FF", "work"⟩] "b1"
    (by decide) (by decide) (by decide) (by decide)

/-! ## C5: `formatTime` -/

/-- C5 is false as stated: `formatTime` never carries minute round-off into
the hour field.  At the valid time `t = 119/120` (≈ 0.9917, i.e. 00:59.5)
the minutes round to 60 and the rendered string is `"00:60"`, not
`"01:00"` — so `MM < 60` does not hold for all valid inputs. -/
theorem c5_counterexample :
    (0 ≤ (119 / 120 : ℚ) ∧ (119 / 120 : ℚ) < 24) ∧
    formatTime (119 / 120) = "00:60" ∧
    formatTime (119 / 120) ≠ "01:00" ∧
    ¬jsRound (((119 / 120 : ℚ) - (⌊(119 / 120 : ℚ)⌋ : ℚ)) * 60) < 60 := by
  refine ⟨by norm_num, ?_, ?_, ?_⟩
  · norm_num [formatTime, jsRound, padTwo]
    decide
  · norm_num [formatTime, jsRound, padTwo]
    decide
  · norm_num [jsRound]

/-- C5 amended: `formatTime` renders zero-padded `HH:MM` with
`HH = floor(t)` (no `mod 24` is applied, but on `[0, 24)` the two agree)
and `MM = round((t - floor(t)) * 60)` with no carry; on inputs satisfying
the data-model quantization invariant (multiples of 0.25 in `[0, 24)`)
the minutes are always one of 0, 15, 30, 45 and in particular `MM < 60`. -/
theorem c5_amended_format (t : ℚ) (h0 : 0 ≤ t) (h24 : t < 24)
    (hq : isQuarter t) :
    formatTime t = padTwo ⌊t⌋ ++ ":" ++ padTwo (jsRound ((t - (⌊t⌋ : ℚ)) * 60)) ∧
    ⌊t⌋ % 24 = ⌊t⌋ ∧
    jsRound ((t - (⌊t⌋ : ℚ)) * 60) < 60 ∧
    (jsRound ((t - (⌊t⌋ : ℚ)) * 60) = 0 ∨ jsRound ((t - (⌊t⌋ : ℚ)) * 60) = 15 ∨
      jsRound ((t - (⌊t⌋ : ℚ)) * 60) = 30 ∨ jsRound ((t - (⌊t⌋ : ℚ)) * 60) = 45) := by
  obtain ⟨k, hk⟩ := hq
  have hk0 : 0 ≤ k := by
    have h4 : (0 : ℚ) ≤ (k : ℚ) := by
      rw [hk] at h0
      linarith
    exact_mod_cast h4
  have hk96 : k < 96 := by
    have h4 : (k : ℚ) < 96 := by
      rw [hk] at h24
      linarith
    exact_mod_cast h4
  obtain ⟨q, r, hqr, hr0, hr4⟩ :
      ∃ q r : ℤ, k = 4 * q + r ∧ 0 ≤ r ∧ r < 4 :=
    ⟨k / 4, k % 4, by omega, by omega, by omega⟩
  have ht : t = (q : ℚ) + (r : ℚ) / 4 := by
    rw [hk, hqr]
    push_cast
    ring
  have hfloor : ⌊t⌋ = q := by
    rw [ht, Int.floor_int_add]
    have hfr : ⌊(r : ℚ) / 4⌋ = 0 := by
      rw [Int.floor_eq_zero_iff]
      constructor
      · positivity
      · have : (r : ℚ) < 4 := by exact_mod_cast hr4
        rw [div_lt_one (by norm_num)]
        exact this
    rw [hfr, add_zero]
  have hq0 : 0 ≤ q := by omega
  have hq23 : q ≤ 23 := by omega
  have hmin : (t - (⌊t⌋ : ℚ)) * 60 = ((15 * r : ℤ) : ℚ) := by
    rw [hfloor, ht]
    push_cast
    ring
  have hjr : jsRound ((t - (⌊t⌋ : ℚ)) * 60) = 15 * r := by
    rw [hmin, jsRound, Int.floor_int_add]
    norm_num
  refine ⟨rfl, ?_, ?_, ?_⟩
  · rw [hfloor]
    exact Int.emod_eq_of_lt hq0 (by omega)
  · rw [hjr]; omega
  · rw [hjr]; omega

/-- Witness for the amended C5 theorem at `t = 23/4` (05:45). -/
theorem c5_amended_format_witness :
    ((0 : ℚ) ≤ 23 / 4 ∧ (23 / 4 : ℚ) < 24 ∧ isQuarter (23 / 4)) ∧
    formatTime (23 / 4) =
      padTwo ⌊(23 / 4 : ℚ)⌋ ++ ":" ++
        padTwo (jsRound (((23 / 4 : ℚ) - (⌊(23 / 4 : ℚ)⌋ : ℚ)) * 60)) ∧
    jsRound (((23 / 4 : ℚ) - (⌊(23 / 4 : ℚ)⌋ : ℚ)) * 60) < 60 :=
  ⟨⟨by norm_num, by norm_num, ⟨23, by norm_num⟩⟩,
    (c5_amended_format (23 / 4) (by norm_num) (by norm_num) ⟨23, by norm_num⟩).1,
    (c5_amended_format (23 / 4) (by norm_num) (by norm_num) ⟨23, by norm_num⟩).2.2.1⟩

/-! ## C6: midnight-wrap rendering (`TimeBlock`, lines 58 and 138–145) -/

/-- One block div produced by `renderBlock(start, end, isSecondPart)`:
geometry in hours (the source divides by 24 for percentages), the owning
block's id, the row it is placed in, and the continuation marker. -/
structure Segment where
  blockId : String
  start : ℚ
  «end» : ℚ
  row : ℕ
  isSecondPart : Bool
deriving DecidableEq, Repr

/-- The `TimeBlock` component body: `spansMidnight = block.start > block.end`
(strict); when it holds, two segments `renderBlock(start, 24)` and
`renderBlock(0, end, true)` are emitted, else the single
`renderBlock(start, end)`.  Every emitted segment carries the same `row`
prop and the same block id. -/
def renderTimeBlock (block : TimeBlockData) (row : ℕ) : List Segment :=
  if block.start > block.«end» then
    [⟨block.id, block.start, 24, row, false⟩,
     ⟨block.id, 0, block.«end», row, true⟩]
  else
    [⟨block.id, block.start, block.«end», row, false⟩]

/-- Modelled from the spec: `duration(start, end)` of §4.1 — the source has
no duration function (the drag handler uses the raw difference
`block.end - block.start`); the spec prescribes `end - start` when
`end > start`, else `end - start + 24`. -/
def duration (start «end» : ℚ) : ℚ :=
  if start < «end» then «end» - start else «end» - start + 24

/-- C6 is false as stated: the renderer splits only when `start > end` is
strict.  An interval with `end = start` (which the data model counts as
midnight-wrapping, `end <= start`) is rendered as a single (zero-width)
segment, not two. -/
theorem c6_counterexample :
    (⟨"z", 5, 5, "Zero", "#FFF", "cal"⟩ : TimeBlockData).«end» ≤
      (⟨"z", 5, 5, "Zero", "#FFF", "cal"⟩ : TimeBlockData).start ∧
    renderTimeBlock ⟨"z", 5, 5, "Zero", "#FFF", "cal"⟩ 0 =
      [⟨"z", 5, 5, 0, false⟩] ∧
    ¬(renderTimeBlock ⟨"z", 5, 5, "Zero", "#FFF", "cal"⟩ 0).length = 2 := by
  refine ⟨le_refl 5, ?_, ?_⟩
  · rw [renderTimeBlock, if_neg (lt_irrefl (5 : ℚ))]
  · rw [renderTimeBlock, if_neg (lt_irrefl (5 : ℚ))]
    simp

/-- C6 amended: every interval with `end` strictly below `start` is rendered
as exactly the two segments `[start, 24)` and `[0, end)`, in this order, in
the same row and with the same interval id, the second marked as a
continuation; the total rendered width equals the spec's wraparound
duration `end - start + 24`. -/
theorem c6_amended_split (block : TimeBlockData) (row : ℕ)
    (hwrap : block.«end» < block.start) :
    renderTimeBlock block row =
      [⟨block.id, block.start, 24, row, false⟩,
       ⟨block.id, 0, block.«end», row, true⟩] ∧
    (24 - block.start) + (block.«end» - 0) =
      duration block.start block.«end» := by
  constructor
  · rw [renderTimeBlock, if_pos hwrap]
  · rw [duration, if_neg (not_lt.mpr (le_of_lt hwrap))]
    ring

/-- Witness for the amended C6 theorem: the interval `{start: 23, end: 7}`
renders as `[23, 24)` and `[0, 7)` in the same row, with duration 8. -/
theorem c6_amended_split_witness :
    ((⟨"sleep", 23, 7, "Sleep", "#F3E6FF", "personal"⟩ :
        TimeBlockData).«end» < 23) ∧
    renderTimeBlock ⟨"sleep", 23, 7, "Sleep", "#F3E6FF", "personal"⟩ 1 =
      [⟨"sleep", 23, 24, 1, false⟩, ⟨"sleep", 0, 7, 1, true⟩] ∧
    (24 - (23 : ℚ)) + ((7 : ℚ) - 0) = duration 23 7 ∧
    duration 23 7 = 8 := by
  have hmain := c6_amended_split
    ⟨"sleep", 23, 7, "Sleep", "#F3E6FF", "personal"⟩ 1 (by norm_num)
  exact ⟨by norm_num, hmain.1, hmain.2, by norm_num [duration]⟩

/-! ## C7: the `move` branch clamp -/

/-- The mutation prescribed by the spec for a `Move` gesture, stated on the
gesture origin: `dur = originEnd - originStart`,
`newStart = clamp(originStart + timeShift, 0, 24 - dur)`,
`newEnd = newStart + dur`, both quantized to 0.25. -/
def specMoveMutation (originStart originEnd timeShift : ℚ) : ℚ × ℚ :=
  let dur := originEnd - originStart
  let newStart := max 0 (min (24 - dur) (originStart + timeShift))
  (quantize newStart, quantize (newStart + dur))

/-- C7: while the snapshot block's stored duration equals the gesture
origin's duration, each proposed `move` mutation matches the spec formula
on the origin values; in particular a 2-hour block dragged so that `start`
would go below 0 is clamped to `[0, 2]`, and dragged so that `end` would
exceed 24 is clamped to `[22, 24]`. -/
theorem c7_move_clamp (block : TimeBlockData)
    (originStart originEnd timeShift : ℚ)
    (hdur : block.«end» - block.start = originEnd - originStart) :
    (moveBranch block originStart timeShift).start =
      some (specMoveMutation originStart originEnd timeShift).1 ∧
    (moveBranch block originStart timeShift).«end» =
      some (specMoveMutation originStart originEnd timeShift).2 ∧
    (originEnd - originStart = 2 → originStart + timeShift < 0 →
      moveBranch block originStart timeShift =
        { start := some 0, «end» := some 2 }) ∧
    (originEnd - originStart = 2 →
      24 < originStart + timeShift + (originEnd - originStart) →
      moveBranch block originStart timeShift =
        { start := some 22, «end» := some 24 }) := by
  refine ⟨?_, ?_, ?_, ?_⟩
  · simp [moveBranch, specMoveMutation, hdur]
  · simp [moveBranch, specMoveMutation, hdur]
  · intro h2 hneg
    simp only [moveBranch, hdur, h2]
    have hmin : (24 - 2 : ℚ) ⊓ (originStart + timeShift) =
        originStart + timeShift := min_eq_right (by linarith)
    rw [hmin]
    have hmax : (0 : ℚ) ⊔ (originStart + timeShift) = 0 :=
      max_eq_left (le_of_lt hneg)
    rw [hmax]
    norm_num [quantize, jsRound]
  · intro h2 hover
    have hshift : 22 < originStart + timeShift := by
      rw [h2] at hover
      linarith
    simp only [moveBranch, hdur, h2]
    have hmin : (24 - 2 : ℚ) ⊓ (originStart + timeShift) = 24 - 2 :=
      min_eq_left (by linarith)
    rw [hmin]
    have hmax : (0 : ℚ) ⊔ (24 - 2) = 24 - 2 := max_eq_right (by norm_num)
    rw [hmax]
    norm_num [quantize, jsRound]

/-- Witness for C7: a 2-hour block `[9, 11]` dragged left by 15 hours lands
at `[0, 2]`. -/
theorem c7_move_clamp_witness :
    ((⟨"b", 9, 11, "B", "#FFF", "cal"⟩ : TimeBlockData).«end» -
        (⟨"b", 9, 11, "B", "#FFF", "cal"⟩ : TimeBlockData).start =
      (11 : ℚ) - 9) ∧
    moveBranch ⟨"b", 9, 11, "B", "#FFF", "cal"⟩ 9 (-15) =
      { start := some 0, «end» := some 2 } :=
  ⟨rfl,
    (c7_move_clamp ⟨"b", 9, 11, "B", "#FFF", "cal"⟩ 9 11 (-15) rfl).2.2.1
      (by norm_num) (by norm_num)⟩

/-! ## C8: the `resize-start` branch and the minimum duration -/

lemma jsRound_mono {x y : ℚ} (h : x ≤ y) : jsRound x ≤ jsRound y :=
  Int.floor_le_floor (by linarith)

lemma quantize_mono {x y : ℚ} (h : x ≤ y) : quantize x ≤ quantize y := by
  rw [quantize, quantize, div_le_div_iff_of_pos_right (by norm_num)]
  exact_mod_cast jsRound_mono (by linarith)

/-- `quantize` fixes every point of the quarter-hour grid. -/
lemma quantize_quarter {x : ℚ} (h : isQuarter x) : quantize x = x := by
  obtain ⟨k, hk⟩ := h
  rw [hk, quantize, jsRound]
  have harg : (k : ℚ) / 4 * 4 + 1 / 2 = (k : ℚ) + 1 / 2 := by
    field_simp
  rw [harg]
  rw [Int.floor_int_add]
  norm_num

/-- C8: a `resize-start` mutation is exactly the quantized clamp of
`initialStart + timeShift` into `[0, block.end - 0.25]`; the update carries
no `end` field (so `end` is unchanged when applied), and on a valid
non-wrapping block the resulting interval keeps `end - start ≥ 0.25`. -/
theorem c8_resize_start (block : TimeBlockData) (initialStart timeShift : ℚ)
    (hqs : isQuarter block.start) (hqe : isQuarter block.«end»)
    (hpos : 0 ≤ block.start) (hlt : block.start < block.«end») :
    (resizeStartBranch block initialStart timeShift).start =
      some (quantize
        (max 0 (min (block.«end» - 1 / 4) (initialStart + timeShift)))) ∧
    (resizeStartBranch block initialStart timeShift).«end» = none ∧
    (applyUpdates block (resizeStartBranch block initialStart timeShift)).«end» =
      block.«end» ∧
    ∀ v, (resizeStartBranch block initialStart timeShift).start = some v →
      0 ≤ v ∧ 1 / 4 ≤ block.«end» - v := by
  have hq14 : isQuarter (block.«end» - 1 / 4) := by
    obtain ⟨k, hk⟩ := hqe
    refine ⟨k - 1, ?_⟩
    rw [hk]
    push_cast
    ring
  have hepos : 1 / 4 ≤ block.«end» := by
    obtain ⟨k, hk⟩ := hqe
    have hk0 : (0 : ℚ) < (k : ℚ) / 4 := by
      rw [← hk]
      exact lt_of_le_of_lt hpos hlt
    have hk1 : 0 < k := by
      by_contra hneg
      push_neg at hneg
      have : (k : ℚ) ≤ 0 := by exact_mod_cast hneg
      nlinarith
    have hk2 : (1 : ℚ) ≤ (k : ℚ) := by exact_mod_cast hk1
    rw [hk]
    linarith
  refine ⟨rfl, rfl, rfl, ?_⟩
  intro v hv
  have hval : v = quantize
      (max 0 (min (block.«end» - 1 / 4) (initialStart + timeShift))) := by
    simpa [resizeStartBranch] using hv.symm
  constructor
  · rw [hval]
    have h0 : quantize 0 = 0 := quantize_quarter ⟨0, by norm_num⟩
    have hmono : quantize 0 ≤ quantize
        (max 0 (min (block.«end» - 1 / 4) (initialStart + timeShift))) :=
      quantize_mono (le_max_left 0 (min (block.«end» - 1 / 4)
        (initialStart + timeShift)))
    rw [h0] at hmono
    exact hmono
  · have hle : max 0 (min (block.«end» - 1 / 4) (initialStart + timeShift)) ≤
        block.«end» - 1 / 4 :=
      max_le (by linarith) (min_le_left _ _)
    have hqv : v ≤ block.«end» - 1 / 4 := by
      rw [hval]
      have hmono := quantize_mono hle
      rw [quantize_quarter hq14] at hmono
      exact hmono
    linarith

/-- Witness for C8 at the block `[9, 17]` with the start handle dragged far
right (shift +30). -/
theorem c8_resize_start_witness :
    (isQuarter (9 : ℚ) ∧ isQuarter (17 : ℚ) ∧ (0 : ℚ) ≤ 9 ∧ (9 : ℚ) < 17) ∧
    ((resizeStartBranch ⟨"b", 9, 17, "B", "#FFF", "cal"⟩ 9 30).start =
      some (quantize (max 0 (min ((17 : ℚ) - 1 / 4) (9 + 30)))) ∧
    (resizeStartBranch ⟨"b", 9, 17, "B", "#FFF", "cal"⟩ 9 30).«end» = none ∧
    (applyUpdates ⟨"b", 9, 17, "B", "#FFF", "cal"⟩
        (resizeStartBranch ⟨"b", 9, 17, "B", "#FFF", "cal"⟩ 9 30)).«end» =
      (17 : ℚ) ∧
    ∀ v, (resizeStartBranch ⟨"b", 9, 17, "B", "#FFF", "cal"⟩ 9 30).start =
        some v →
      0 ≤ v ∧ 1 / 4 ≤ (17 : ℚ) - v) :=
  ⟨⟨⟨36, by norm_num⟩, ⟨68, by norm_num⟩, by norm_num, by norm_num⟩,
    c8_resize_start ⟨"b", 9, 17, "B", "#FFF", "cal"⟩ 9 30
      ⟨36, by norm_num⟩ ⟨68, by norm_num⟩ (by norm_num) (by norm_num)⟩

/-! ## C9: partial updates touch only their own fields and interval -/

lemma applyUpdates_id_of_none {b : TimeBlockData} {u : Updates}
    (h : u.id = none) : (applyUpdates b u).id = b.id := by
  simp [applyUpdates, h]

/-- C9: an update request for one id rewrites only the targeted entries of
the store (entries with another id are returned unchanged, at their
position); on the target, fields absent from the update keep their values
and present fields are replaced; a label-only update changes exactly the
label; and updates addressed to two different ids (neither rewriting the
`id` field) commute, so concurrent edits to two different intervals do not
interfere. -/
theorem c9_partial_update (store : List TimeBlockData) (id : String)
    (u : Updates) (id2 : String) (u2 : Updates) :
    (∀ (i : ℕ) (b : TimeBlockData), store[i]? = some b → b.id ≠ id →
      (onUpdateBlock store id u)[i]? = some b) ∧
    (∀ (i : ℕ) (b : TimeBlockData), store[i]? = some b → b.id = id →
      (onUpdateBlock store id u)[i]? = some (applyUpdates b u)) ∧
    (∀ b : TimeBlockData,
      (u.id = none → (applyUpdates b u).id = b.id) ∧
      (u.start = none → (applyUpdates b u).start = b.start) ∧
      (u.«end» = none → (applyUpdates b u).«end» = b.«end») ∧
      (u.label = none → (applyUpdates b u).label = b.label) ∧
      (u.color = none → (applyUpdates b u).color = b.color) ∧
      (u.calendarId = none → (applyUpdates b u).calendarId = b.calendarId) ∧
      (∀ v, u.start = some v → (applyUpdates b u).start = v) ∧
      (∀ v, u.label = some v → (applyUpdates b u).label = v)) ∧
    (∀ (b : TimeBlockData) (l : String),
      applyUpdates b (labelUpdate l) = { b with label := l }) ∧
    (u.id = none → u2.id = none → id ≠ id2 →
      onUpdateBlock (onUpdateBlock store id u) id2 u2 =
        onUpdateBlock (onUpdateBlock store id2 u2) id u) := by
  refine ⟨?_, ?_, ?_, ?_, ?_⟩
  · intro i b hib hne
    simp [onUpdateBlock, List.getElem?_map, hib, hne]
  · intro i b hib heq
    simp [onUpdateBlock, List.getElem?_map, hib, heq]
  · intro b
    refine ⟨fun h => by simp [applyUpdates, h], fun h => by simp [applyUpdates, h],
      fun h => by simp [applyUpdates, h], fun h => by simp [applyUpdates, h],
      fun h => by simp [applyUpdates, h], fun h => by simp [applyUpdates, h],
      fun v h => by simp [applyUpdates, h], fun v h => by simp [applyUpdates, h]⟩
  · intro b l
    rfl
  · intro hu1 hu2 hne
    simp only [onUpdateBlock, List.map_map]
    have hfun :
        ((fun b => if b.id == id2 then applyUpdates b u2 else b) ∘
          fun b => if b.id == id then applyUpdates b u else b) =
        ((fun b => if b.id == id then applyUpdates b u else b) ∘
          fun b => if b.id == id2 then applyUpdates b u2 else b) := by
      funext b
      by_cases h1 : b.id = id
      · by_cases h2 : b.id = id2
        · exact absurd (h1.symm.trans h2) hne
        · simp [Function.comp, h1, h2, hne, applyUpdates_id_of_none hu1]
      · by_cases h2 : b.id = id2
        · simp [Function.comp, h1, h2, Ne.symm hne, applyUpdates_id_of_none hu2]
        · simp [Function.comp, h1, h2]
    rw [hfun]

/-- Witness for C9: a label edit on `b1` and a start edit on `b2` commute
on a concrete two-interval store. -/
theorem c9_partial_update_witness :
    onUpdateBlock
        (onUpdateBlock
          [⟨"b1", 9, 17, "Work", "#E6F3FF", "work"⟩,
           ⟨"b2", 1, 3, "Gym", "#F3E6FF", "work"⟩]
          "b1" { label := some "Deep work" })
        "b2" { start := some (3 / 2) } =
      onUpdateBlock
        (onUpdateBlock
          [⟨"b1", 9, 17, "Work", "#E6F3FF", "work"⟩,
           ⟨"b2", 1, 3, "Gym", "#F3E6FF", "work"⟩]
          "b2" { start := some (3 / 2) })
        "b1" { label := some "Deep work" } :=
  (c9_partial_update
      [⟨"b1", 9, 17, "Work", "#E6F3FF", "work"⟩,
       ⟨"b2", 1, 3, "Gym", "#F3E6FF", "work"⟩]
      "b1" { label := some "Deep work" } "b2"
      { start := some (3 / 2) }).2.2.2.2 rfl rfl (by decide)

end Scheduler
